import Mathlib

/-!
Verification of the autocomplete-trie command-line tool.

The repository contains two Python source files, `src/app.py` (the
line-oriented command dispatcher) and `src/io_utils.py` (CSV load/save
helpers).  The trie itself (`src/trie.py`) is imported by `app.py` but is
not part of the repository; its behaviour is modelled from the
specification where needed, and every such definition is marked
`Modelled from the spec:` in its doc comment.

The embedding is shallow: Python strings are Lean `String`s, Python
floats are modelled as `ℚ`, files are modelled at the level at which
`csv.reader` delivers them (a list of rows, each a list of string
fields, a blank line giving the empty row), and the Python built-ins
`float`, `int` and `str` applied to numbers are abstract parameters
bundled in `PyPrims` (`none` models a `ValueError`).  Stdout, stderr and
file writes performed by a command are returned explicitly in
`ExecResult`.
-/

/-- Model of Python `str.strip` on the character list: drop leading
whitespace characters. -/
def dropLeadingWs : List Char → List Char
  | [] => []
  | c :: cs => if c.isWhitespace then dropLeadingWs cs else c :: cs

/-- Model of Python `str.strip`: drop leading and trailing whitespace. -/
def pyStrip (s : String) : String :=
  ⟨(dropLeadingWs (dropLeadingWs s.data.reverse).reverse)⟩

/-- Model of Python `str.lower`: lower-case every character (ASCII
lowercasing; the spec rules out Unicode-aware case folding). -/
def pyLower (s : String) : String := ⟨s.data.map Char.toLower⟩

/-- Helper for `pySplit`: scan the character list, accumulating the
current (reversed) token. -/
def pySplitAux : List Char → List Char → List String
  | [], cur => if cur.isEmpty then [] else [⟨cur.reverse⟩]
  | c :: cs, cur =>
    if c.isWhitespace then
      if cur.isEmpty then pySplitAux cs []
      else (⟨cur.reverse⟩ : String) :: pySplitAux cs []
    else pySplitAux cs (c :: cur)

/-- Model of Python `str.split()` with no argument: split on runs of
whitespace, never producing empty tokens. -/
def pySplit (s : String) : List String := pySplitAux s.data []

/-- Boolean test that one character list is a prefix of another
(character-by-character). -/
def listPfx : List Char → List Char → Bool
  | [], _ => true
  | _ :: _, [] => false
  | a :: as, b :: bs => a == b && listPfx as bs

/-- Boolean test that string `p` is a prefix of string `w`. -/
def strPfx (p w : String) : Bool := listPfx p.data w.data

/-- Lexicographic less-or-equal on character lists, comparing code
points, as Python compares strings. -/
def lexLe : List Char → List Char → Bool
  | [], _ => true
  | _ :: _, [] => false
  | a :: as, b :: bs => if a < b then true else if b < a then false else lexLe as bs

theorem lexLe_total : ∀ x y : List Char, lexLe x y = true ∨ lexLe y x = true := by
  intro x
  induction x with
  | nil => intro y; left; rfl
  | cons a as ih =>
    intro y
    cases y with
    | nil => right; rfl
    | cons b bs =>
      rcases lt_trichotomy a b with h | h | h
      · left; simp [lexLe, h]
      · subst h
        rcases ih bs with h2 | h2
        · left; simp [lexLe, lt_irrefl, h2]
        · right; simp [lexLe, lt_irrefl, h2]
      · right; simp [lexLe, h]

theorem lexLe_trans :
    ∀ x y z : List Char, lexLe x y = true → lexLe y z = true → lexLe x z = true := by
  intro x
  induction x with
  | nil => intro y z _ _; rfl
  | cons a as ih =>
    intro y z h1 h2
    cases y with
    | nil => simp [lexLe] at h1
    | cons b bs =>
      cases z with
      | nil => simp [lexLe] at h2
      | cons c cs =>
        simp only [lexLe] at h1 h2 ⊢
        by_cases hab : a < b
        · by_cases hbc : b < c
          · simp [lt_trans hab hbc]
          · by_cases hcb : c < b
            · simp [hbc, hcb] at h2
            · have hbceq : b = c := le_antisymm (not_lt.mp hcb) (not_lt.mp hbc)
              subst hbceq
              simp [hab]
        · by_cases hba : b < a
          · simp [hab, hba] at h1
          · have habeq : a = b := le_antisymm (not_lt.mp hba) (not_lt.mp hab)
            subst habeq
            simp only [if_neg hab, if_neg hba] at h1 ⊢
            by_cases hac : a < c
            · simp [hac]
            · by_cases hca : c < a
              · simp [hac, hca] at h2
              · have haceq : a = c := le_antisymm (not_lt.mp hca) (not_lt.mp hac)
                subst haceq
                simp only [if_neg hac, if_neg (lt_irrefl a)] at h2 ⊢
                exact ih _ _ h1 h2

/-- Modelled from the spec: the ranking order of `complete` — primarily
by descending weight, ties broken by ascending lexicographic order of
the full word. -/
def rankLE (a b : String × ℚ) : Prop :=
  b.2 < a.2 ∨ (a.2 = b.2 ∧ lexLe a.1.data b.1.data = true)

instance : DecidableRel rankLE := fun _ _ => inferInstanceAs (Decidable (_ ∨ _))

instance : IsTotal (String × ℚ) rankLE where
  total a b := by
    rcases lt_trichotomy a.2 b.2 with h | h | h
    · right; left; exact h
    · rcases lexLe_total a.1.data b.1.data with h2 | h2
      · left; right; exact ⟨h, h2⟩
      · right; right; exact ⟨h.symm, h2⟩
    · left; left; exact h

instance : IsTrans (String × ℚ) rankLE where
  trans a b c h1 h2 := by
    rcases h1 with h1 | ⟨e1, l1⟩
    · rcases h2 with h2 | ⟨e2, _⟩
      · exact Or.inl (lt_trans h2 h1)
      · exact Or.inl (e2 ▸ h1)
    · rcases h2 with h2 | ⟨e2, l2⟩
      · exact Or.inl (e1 ▸ h2)
      · exact Or.inr ⟨e1.trans e2, lexLe_trans _ _ _ l1 l2⟩

/-- Word-wise lexicographic order used by `items()` for its stable
enumeration order. -/
def itemLE (a b : String × ℚ) : Prop := lexLe a.1.data b.1.data = true

instance : DecidableRel itemLE := fun _ _ => inferInstanceAs (Decidable (_ = _))

/-- The Python primitives the two source files use on numbers, kept
abstract: `floatOfString` models `float(s)` (`none` models the
`ValueError` raised on a malformed literal), `intOfString` models
`int(s)`, and `strOfFloat` models `str` applied to a float. -/
structure PyPrims where
  floatOfString : String → Option ℚ
  intOfString : String → Option Int
  strOfFloat : ℚ → String

/-- Modelled from the spec: the observable state of the trie
(`src/trie.py` is imported by `app.py` but absent from the repository).
The spec determines the trie's behaviour entirely by the finite set of
stored (word, weight) pairs with last-write-wins weights, so the state
is an association list with unique keys maintained by `trieInsert`. -/
abbrev TrieState := List (String × ℚ)

/-- Modelled from the spec: a freshly constructed trie stores nothing. -/
def trieEmpty : TrieState := []

/-- Modelled from the spec: `insert` stores the word with the given
weight; inserting an already-present word overwrites its weight (last
write wins). -/
def trieInsert (t : TrieState) (w : String) (q : ℚ) : TrieState :=
  t.filter (fun p => p.1 != w) ++ [(w, q)]

/-- Modelled from the spec: `remove` returns `true` iff the word was
present, and deletes it; absence is signalled by the boolean, never by
an exception. -/
def trieRemove (t : TrieState) (w : String) : Bool × TrieState :=
  (t.any (fun p => p.1 == w), t.filter (fun p => p.1 != w))

/-- Modelled from the spec: membership of an exact stored word. -/
def trieContains (t : TrieState) (w : String) : Bool :=
  t.any (fun p => p.1 == w)

/-- Modelled from the spec: the (word, weight) pairs `complete` selects —
the stored pairs whose word extends the given prefix, sorted primarily
by descending weight with ties broken by ascending lexicographic order
of the word, truncated to the first `k`. -/
def completePairs (t : TrieState) (p : String) (k : ℕ) : List (String × ℚ) :=
  (List.insertionSort rankLE (t.filter (fun e => strPfx p e.1))).take k

/-- Modelled from the spec: `complete` returns the words of
`completePairs`, in rank order. -/
def trieComplete (t : TrieState) (p : String) (k : ℕ) : List String :=
  (completePairs t p k).map Prod.fst

/-- Modelled from the spec: `items()` enumerates every stored
(word, weight) pair in a stable, deterministic (lexicographic) order. -/
def trieItems (t : TrieState) : List (String × ℚ) :=
  List.insertionSort itemLE t

/-- All prefixes of a word, shortest first, the empty prefix (the root)
included. -/
def prefixesOf (w : String) : List String :=
  (List.range (w.data.length + 1)).map (fun n => ⟨w.data.take n⟩)

/-- Modelled from the spec: `stats()` returns (word count, height, node
count); a live node exists exactly for each distinct prefix of a stored
word, the root included, and the height is the longest stored word's
length. -/
def trieStats (t : TrieState) : ℕ × ℕ × ℕ :=
  let ws := (t.map Prod.fst).dedup
  (ws.length,
   (ws.map (fun w => w.data.length)).foldr max 0,
   ((ws.map prefixesOf).flatten.dedup).length)

/-- Translation of the score handling inside `load_csv`
(src/io_utils.py): the score defaults to 0.0 when the second field is
missing, and `float(row[1])` with `ValueError` coerced to 0.0 when it is
present. -/
def rowScore (py : PyPrims) (rest : List String) : ℚ :=
  match rest with
  | [] => 0
  | s :: _ => (py.floatOfString s).getD 0

/-- Translation of the per-row body of the `for row in reader` loop of
`load_csv` (src/io_utils.py): a blank row (`not row`) is skipped, the
word is the first field stripped then lowercased, and the score is
`rowScore` of the remaining fields. -/
def parseRow (py : PyPrims) (row : List String) : Option (String × ℚ) :=
  match row with
  | [] => none
  | w :: rest => some (pyLower (pyStrip w), rowScore py rest)

/-- Translation of `load_csv` (src/io_utils.py).  The file is given as
`none` when opening it fails (modelling `FileNotFoundError` and the
generic read failures, both caught inside `load_csv`) and as the list of
CSV rows otherwise.  Returns the (word, score) pairs together with the
lines the function prints to stdout. -/
def load_csv (py : PyPrims) (pathStr : String)
    (file : Option (List (List String))) : List (String × ℚ) × List String :=
  match file with
  | none => ([], ["ERROR: File not found at " ++ pathStr])
  | some rows => (rows.filterMap (parseRow py), [])

/-- Translation of `save_csv` (src/io_utils.py), returning the rows the
`csv.writer` emits: one row per (word, score) pair, each row the word
followed by `str(score)`, and nothing else. -/
def save_csv (py : PyPrims) (items : List (String × ℚ)) : List (List String) :=
  items.map (fun wq => [wq.1, py.strOfFloat wq.2])

/-- Translation of the `for word, score in pairs: new_trie.insert(word,
score)` loop of `load_command` (src/app.py): one `insert` call per pair,
in list order. -/
def applyInserts (t : TrieState) (ps : List (String × ℚ)) : TrieState :=
  ps.foldl (fun a wq => trieInsert a wq.1 wq.2) t

/-- Translation of `load_command` (src/app.py): parse the file with
`load_csv`, then insert every pair into a freshly constructed trie,
which replaces the current one.  Returns the new trie and the stdout
lines. -/
def load_command (py : PyPrims) (fs : String → Option (List (List String)))
    (pathStr : String) : TrieState × List String :=
  let r := load_csv py pathStr (fs pathStr)
  (applyInserts trieEmpty r.1, r.2)

/-- The observable outcome of one dispatched line: whether the loop
continues, the (possibly replaced) trie, the stdout lines, the stderr
lines, and the CSV files written (path with rows). -/
structure ExecResult where
  cont : Bool
  trie : TrieState
  out : List String
  err : List String
  writes : List (String × List (List String))
  deriving DecidableEq, Repr

/-- The result of a line that does nothing: continue, trie unchanged, no
output, no writes. -/
def noopResult (t : TrieState) : ExecResult := ⟨true, t, [], [], []⟩

/-- Translation of the command dispatch of `parse_and_execute`
(src/app.py), from the split token list on.  Every branch mirrors one
`if cmd == ... and len(parts) == ...` test in source order; the
`float`/`int` failures inside `insert_command`/`complete_command` raise
`ValueError`, caught by the surrounding `except` which does nothing, so
those cases return `noopResult`.  `trie.complete` is called with the
parsed `k` clamped to ℕ (the spec defines `complete` for `k ≥ 0` only).
File writes are recorded in `writes` (write success is assumed; a
failing write only changes printed errors, which no claim concerns). -/
def execParts (py : PyPrims) (fs : String → Option (List (List String)))
    (parts : List String) (t : TrieState) : ExecResult :=
  match parts with
  | [] => noopResult t
  | p0 :: rest =>
    let ps := p0 :: rest
    let cmd := pyLower p0
    if cmd = "quit" then ⟨false, t, [], [], []⟩
    else if cmd = "load" ∧ ps.length = 2 then
      let r := load_command py fs ps[1]!
      ⟨true, r.1, r.2, [], []⟩
    else if cmd = "save" ∧ ps.length = 2 then
      ⟨true, t, [], [], [(ps[1]!, save_csv py (trieItems t))]⟩
    else if cmd = "insert" ∧ ps.length = 3 then
      match py.floatOfString ps[2]! with
      | none => noopResult t
      | some q => ⟨true, trieInsert t (pyLower ps[1]!) q, [], [], []⟩
    else if cmd = "remove" ∧ ps.length = 2 then
      let r := trieRemove t (pyLower ps[1]!)
      ⟨true, r.2, [if r.1 then "OK" else "MISS"], [], []⟩
    else if cmd = "contains" ∧ ps.length = 2 then
      ⟨true, t, [if trieContains t (pyLower ps[1]!) then "YES" else "NO"], [], []⟩
    else if cmd = "complete" ∧ ps.length = 3 then
      match py.intOfString ps[2]! with
      | none => noopResult t
      | some k =>
        ⟨true, t, [String.intercalate "," (trieComplete t (pyLower ps[1]!) k.toNat)], [], []⟩
    else if cmd = "stats" ∧ ps.length = 1 then
      let s := trieStats t
      ⟨true, t,
        ["words=" ++ toString s.1 ++ " height=" ++ toString s.2.1
          ++ " nodes=" ++ toString s.2.2], [], []⟩
    else noopResult t

/-- Translation of `parse_and_execute` (src/app.py): strip the line,
treat an empty line as a no-op, split on whitespace and dispatch (the
redundant `if not parts` check of the source is the `[]` branch of
`execParts`). -/
def parse_and_execute (py : PyPrims) (fs : String → Option (List (List String)))
    (line : String) (t : TrieState) : ExecResult :=
  let l := pyStrip line
  if l = "" then noopResult t else execParts py fs (pySplit l) t

/-- The command/arity pairs that reach a handler in `execParts`
(`quit` excluded: it takes any argument count). -/
def arityOkB (cmd : String) (n : ℕ) : Bool :=
  (cmd == "load" && n == 2) || (cmd == "save" && n == 2) ||
  (cmd == "insert" && n == 3) || (cmd == "remove" && n == 2) ||
  (cmd == "contains" && n == 2) || (cmd == "complete" && n == 3) ||
  (cmd == "stats" && n == 1)

/-- A split line that is not a well-formed command: empty, not `quit`
and either of unknown command/arity, or an `insert` whose frequency does
not parse as a float, or a `complete` whose `k` does not parse as an
int. -/
def malformedB (py : PyPrims) (parts : List String) : Bool :=
  match parts with
  | [] => true
  | p0 :: rest =>
    let ps := p0 :: rest
    let cmd := pyLower p0
    cmd != "quit" &&
      (!(arityOkB cmd ps.length) ||
        (cmd == "insert" && ps.length == 3 && (py.floatOfString ps[2]!).isNone) ||
        (cmd == "complete" && ps.length == 3 && (py.intOfString ps[2]!).isNone))

/-- The trie of the spec's top-k example: exactly the words "cat"
(weight 5), "car" (weight 3) and "can" (weight 5). -/
def exampleTrie : TrieState :=
  trieInsert (trieInsert (trieInsert trieEmpty "cat" 5) "car" 3) "can" 5

/-- A `PyPrims` on which every numeric conversion fails. -/
def pyTriv : PyPrims :=
  ⟨fun _ => none, fun _ => none, fun _ => ""⟩

/-- A `PyPrims` that parses exactly the literals used in the concrete
witnesses. -/
def pyTest : PyPrims :=
  ⟨fun s => if s = "5" then some 5 else if s = "1" then some 1 else none,
   fun s => if s = "3" then some 3 else none,
   fun _ => ""⟩

/-- A file system with no readable files. -/
def fsNone : String → Option (List (List String)) := fun _ => none

/-- A file system with a single two-row CSV file. -/
def fsTest : String → Option (List (List String)) :=
  fun _ => some [["a", "1"], ["b"]]

/-- C1: for every trie state, prefix `p` and `k ≥ 0`, `complete(p, k)`
returns at most `k` of the stored words having `p` as a prefix, ranked
primarily by descending weight with ties broken by ascending
lexicographic order of the full word; with exactly "cat" (weight 5),
"car" (weight 3), "can" (weight 5) stored, `complete("ca", 3)` returns
["can", "cat", "car"]. -/
theorem trieComplete_topk_spec (t : TrieState) (p : String) (k : ℕ) :
    (trieComplete t p k).length ≤ k ∧
    (∀ w ∈ trieComplete t p k, strPfx p w = true ∧ ∃ q, (w, q) ∈ t) ∧
    List.Pairwise rankLE (completePairs t p k) ∧
    trieComplete t p k = (completePairs t p k).map Prod.fst ∧
    trieComplete exampleTrie "ca" 3 = ["can", "cat", "car"] := by
  refine ⟨?_, ?_, ?_, rfl, by decide⟩
  · rw [trieComplete, List.length_map, completePairs]
    exact List.length_take_le k (List.insertionSort rankLE (t.filter (fun e => strPfx p e.1)))
  · intro w hw
    rw [trieComplete] at hw
    obtain ⟨pr, hpr, rfl⟩ := List.mem_map.mp hw
    have h1 : pr ∈ List.insertionSort rankLE (t.filter (fun e => strPfx p e.1)) :=
      (List.take_sublist _ _).subset hpr
    have h2 : pr ∈ t.filter (fun e => strPfx p e.1) :=
      (List.perm_insertionSort rankLE _).mem_iff.mp h1
    have h3 := List.mem_filter.mp h2
    exact ⟨h3.2, pr.2, by rw [Prod.mk.eta]; exact h3.1⟩
  · exact List.Pairwise.sublist (List.take_sublist _ _)
      (List.sorted_insertionSort rankLE (t.filter (fun e => strPfx p e.1)))

/-- Witness for C1 at the spec's own example. -/
theorem trieComplete_topk_spec_witness :
    strPfx "ca" "can" = true ∧ (∃ q, (("can" : String), q) ∈ exampleTrie) ∧
    trieComplete exampleTrie "ca" 3 = ["can", "cat", "car"] :=
  ⟨((trieComplete_topk_spec exampleTrie "ca" 3).2.1 "can" (by decide)).1,
   ((trieComplete_topk_spec exampleTrie "ca" 3).2.1 "can" (by decide)).2,
   (trieComplete_topk_spec exampleTrie "ca" 3).2.2.2.2⟩

/-- C2: a CSV row whose first field is present is paired with the
default weight 0.0 when its second field is missing or does not parse
as a number, and with the parsed value when it does parse; every parsed
row ends up in the list `load_csv` returns. -/
theorem load_csv_weight_coercion (py : PyPrims) :
    (∀ w, parseRow py [w] = some (pyLower (pyStrip w), 0)) ∧
    (∀ w s rest, py.floatOfString s = none →
      parseRow py (w :: s :: rest) = some (pyLower (pyStrip w), 0)) ∧
    (∀ w s rest q, py.floatOfString s = some q →
      parseRow py (w :: s :: rest) = some (pyLower (pyStrip w), q)) ∧
    (∀ pathStr rows row pr, row ∈ rows → parseRow py row = some pr →
      pr ∈ (load_csv py pathStr (some rows)).1) := by
  refine ⟨fun w => rfl, ?_, ?_, ?_⟩
  · intro w s rest h; simp [parseRow, rowScore, h]
  · intro w s rest q h; simp [parseRow, rowScore, h]
  · intro pathStr rows row pr hrow hpr
    simp only [load_csv]
    exact List.mem_filterMap.mpr ⟨row, hrow, hpr⟩

/-- Witness for C2 on concrete rows. -/
theorem load_csv_weight_coercion_witness :
    parseRow pyTest ["w", "bad"] = some (pyLower (pyStrip "w"), 0) ∧
    parseRow pyTest ["w", "5"] = some (pyLower (pyStrip "w"), 5) ∧
    (("w" : String), (5 : ℚ)) ∈ (load_csv pyTest "p.csv" (some [["w", "5"]])).1 :=
  ⟨(load_csv_weight_coercion pyTest).2.1 "w" "bad" [] (by decide),
   (load_csv_weight_coercion pyTest).2.2.1 "w" "5" [] 5 (by decide),
   (load_csv_weight_coercion pyTest).2.2.2 "p.csv" [["w", "5"]] ["w", "5"] ("w", 5)
     (by decide) (by decide)⟩

/-- C3 counterexample: the loader does not validate empty words.  A CSV
row whose first field is whitespace-only yields a pair whose word is the
empty string, and running the `load` command inserts that empty word
into the freshly built trie. -/
theorem load_validation_counterexample :
    "" ∈ ((load_csv pyTriv "words.csv" (some [[" ", "5"]])).1.map Prod.fst) ∧
    (execParts pyTriv (fun _ => some [[" ", "5"]]) ["load", "words.csv"] exampleTrie).trie
      = [("", 0)] := by decide

/-- C3 amended: during bulk load the caller coerces malformed numeric
weights to 0.0 before calling the trie, but it does not validate empty
words — a row whose first field strips to the empty string produces a
(word, score) pair with the empty word, and the load command invokes
`insert` on every produced pair, that one included. -/
theorem load_validation_amended (py : PyPrims) :
    (∀ w s rest, py.floatOfString s = none →
      parseRow py (w :: s :: rest) = some (pyLower (pyStrip w), 0)) ∧
    (∀ w rest rows pathStr, (w :: rest) ∈ rows → pyStrip w = "" →
      (("" : String), rowScore py rest) ∈ (load_csv py pathStr (some rows)).1) ∧
    (∀ (t0 : TrieState) (pr : String × ℚ) (ps : List (String × ℚ)),
      applyInserts t0 (pr :: ps) = applyInserts (trieInsert t0 pr.1 pr.2) ps) := by
  refine ⟨?_, ?_, fun t0 pr ps => rfl⟩
  · intro w s rest h; simp [parseRow, rowScore, h]
  · intro w rest rows pathStr hmem hstrip
    simp only [load_csv]
    refine List.mem_filterMap.mpr ⟨w :: rest, hmem, ?_⟩
    simp only [parseRow, hstrip]
    rfl

/-- Witness for the amended C3. -/
theorem load_validation_amended_witness :
    parseRow pyTriv ["w", "bad"] = some (pyLower (pyStrip "w"), 0) ∧
    (("" : String), rowScore pyTriv ["5"]) ∈ (load_csv pyTriv "w.csv" (some [[" ", "5"]])).1 :=
  ⟨(load_validation_amended pyTriv).1 "w" "bad" [] rfl,
   (load_validation_amended pyTriv).2.1 " " ["5"] [[" ", "5"]] "w.csv" (by decide) (by decide)⟩

/-- C10: `load_csv` skips blank rows entirely, takes the word from the
first field with surrounding whitespace stripped and letters lowercased,
and ignores any fields beyond the second. -/
theorem load_csv_row_handling (py : PyPrims) :
    parseRow py [] = none ∧
    (∀ pathStr rows, (load_csv py pathStr (some ([] :: rows))).1
      = (load_csv py pathStr (some rows)).1) ∧
    (∀ w rest, (parseRow py (w :: rest)).map Prod.fst = some (pyLower (pyStrip w))) ∧
    (∀ w s rest, parseRow py (w :: s :: rest) = parseRow py [w, s]) := by
  refine ⟨rfl, ?_, fun w rest => rfl, fun w s rest => rfl⟩
  intro pathStr rows
  simp [load_csv, List.filterMap_cons, parseRow]

/-- C4: for every `insert`, `remove`, `contains` and `complete` command
the dispatcher lowercases the word or prefix argument (`str.lower`)
before invoking the corresponding trie method, and the CSV loader
applies the same lowercasing to the word field. -/
theorem dispatcher_lowercases_arguments (py : PyPrims)
    (fs : String → Option (List (List String))) (t : TrieState) (w f p k : String) :
    (execParts py fs ["insert", w, f] t =
      (match py.floatOfString f with
       | none => noopResult t
       | some q => ⟨true, trieInsert t (pyLower w) q, [], [], []⟩)) ∧
    (execParts py fs ["remove", w] t =
      ⟨true, (trieRemove t (pyLower w)).2,
        [if (trieRemove t (pyLower w)).1 then "OK" else "MISS"], [], []⟩) ∧
    (execParts py fs ["contains", w] t =
      ⟨true, t, [if trieContains t (pyLower w) then "YES" else "NO"], [], []⟩) ∧
    (execParts py fs ["complete", p, k] t =
      (match py.intOfString k with
       | none => noopResult t
       | some n =>
         ⟨true, t, [String.intercalate "," (trieComplete t (pyLower p) n.toNat)], [], []⟩)) ∧
    (∀ w0 rest, parseRow py (w0 :: rest) = some (pyLower (pyStrip w0), rowScore py rest)) :=
  ⟨rfl, rfl, rfl, rfl, fun _ _ => rfl⟩

/-- C5: the `remove` command signals presence or absence only through
the boolean returned by `trie.remove` — the dispatcher prints "OK"
exactly when it returns true and "MISS" exactly when it returns false,
and nothing else happens. -/
theorem remove_signals_via_boolean (py : PyPrims)
    (fs : String → Option (List (List String))) (w : String) (t : TrieState) :
    execParts py fs ["remove", w] t =
      ⟨true, (trieRemove t (pyLower w)).2,
        [if (trieRemove t (pyLower w)).1 then "OK" else "MISS"], [], []⟩ ∧
    ((execParts py fs ["remove", w] t).out = ["OK"] ↔ (trieRemove t (pyLower w)).1 = true) ∧
    ((execParts py fs ["remove", w] t).out = ["MISS"] ↔ (trieRemove t (pyLower w)).1 = false) := by
  have hr : execParts py fs ["remove", w] t =
      ⟨true, (trieRemove t (pyLower w)).2,
        [if (trieRemove t (pyLower w)).1 then "OK" else "MISS"], [], []⟩ := rfl
  refine ⟨hr, ?_, ?_⟩ <;> rw [hr] <;> cases h : (trieRemove t (pyLower w)).1 <;> simp

/-- C6: the `save` command writes, through `items()`, exactly one
textual record per stored pair, each record having exactly the two
fields word and weight, with no header row. -/
theorem save_writes_one_record_per_pair (py : PyPrims)
    (fs : String → Option (List (List String))) (pathStr : String) (t : TrieState) :
    (save_csv py (trieItems t)).length = (trieItems t).length ∧
    (∀ r ∈ save_csv py (trieItems t), r.length = 2) ∧
    save_csv py (trieItems t) = (trieItems t).map (fun wq => [wq.1, py.strOfFloat wq.2]) ∧
    execParts py fs ["save", pathStr] t =
      ⟨true, t, [], [], [(pathStr, save_csv py (trieItems t))]⟩ := by
  refine ⟨by simp [save_csv], ?_, rfl, rfl⟩
  intro r hr
  simp only [save_csv, List.mem_map] at hr
  obtain ⟨wq, _, rfl⟩ := hr
  rfl

/-- Witness for C6 on the example trie. -/
theorem save_writes_one_record_per_pair_witness :
    (save_csv pyTriv (trieItems exampleTrie)).length = (trieItems exampleTrie).length ∧
    (["can", pyTriv.strOfFloat 5] : List String).length = 2 :=
  ⟨(save_writes_one_record_per_pair pyTriv fsNone "out.csv" exampleTrie).1,
   (save_writes_one_record_per_pair pyTriv fsNone "out.csv" exampleTrie).2.1
     ["can", pyTriv.strOfFloat 5] (by decide)⟩

/-- C7: when the file parses into a list of (word, score) pairs, the
`load` command builds the new trie by exactly one `insert` per pair, in
file order, starting from a fresh trie (`applyInserts` is the loop, and
the two final conjuncts say it performs its inserts sequentially, one
per pair, left to right). -/
theorem load_inserts_each_pair_in_order (py : PyPrims)
    (fs : String → Option (List (List String))) (pathStr : String)
    (rows : List (List String)) (t : TrieState) (hfs : fs pathStr = some rows) :
    (execParts py fs ["load", pathStr] t).trie
      = applyInserts trieEmpty (rows.filterMap (parseRow py)) ∧
    (execParts py fs ["load", pathStr] t).cont = true ∧
    (∀ (t0 : TrieState) (ps1 ps2 : List (String × ℚ)),
      applyInserts t0 (ps1 ++ ps2) = applyInserts (applyInserts t0 ps1) ps2) ∧
    (∀ (t0 : TrieState) (pr : String × ℚ) (ps : List (String × ℚ)),
      applyInserts t0 (pr :: ps) = applyInserts (trieInsert t0 pr.1 pr.2) ps) := by
  refine ⟨?_, rfl, ?_, fun t0 pr ps => rfl⟩
  · show (load_command py fs pathStr).1 = _
    simp [load_command, load_csv, hfs]
  · intro t0 ps1 ps2
    simp [applyInserts, List.foldl_append]

/-- Witness for C7 on a concrete two-row file. -/
theorem load_inserts_each_pair_in_order_witness :
    (execParts pyTest fsTest ["load", "in.csv"] exampleTrie).trie
      = applyInserts trieEmpty ([["a", "1"], ["b"]].filterMap (parseRow pyTest)) :=
  (load_inserts_each_pair_in_order pyTest fsTest "in.csv" [["a", "1"], ["b"]]
    exampleTrie rfl).1

/-- C8: when the file cannot be read, `load_csv` returns the empty list
and the `load` command still replaces the current trie by a freshly
constructed empty one, discarding every word previously inserted in
memory. -/
theorem failed_load_resets_trie (py : PyPrims)
    (fs : String → Option (List (List String))) (pathStr : String) (t : TrieState)
    (hfs : fs pathStr = none) :
    (load_csv py pathStr (fs pathStr)).1 = [] ∧
    execParts py fs ["load", pathStr] t =
      ⟨true, trieEmpty, ["ERROR: File not found at " ++ pathStr], [], []⟩ ∧
    (∀ w q, (w, q) ∈ t → trieContains (execParts py fs ["load", pathStr] t).trie w = false) := by
  refine ⟨by simp [load_csv, hfs], ?_, ?_⟩
  · show (⟨true, (load_command py fs pathStr).1, (load_command py fs pathStr).2, [], []⟩
        : ExecResult) = _
    simp [load_command, load_csv, hfs, applyInserts, trieEmpty]
  · intro w q _
    show trieContains (load_command py fs pathStr).1 w = false
    simp [load_command, load_csv, hfs, applyInserts, trieEmpty, trieContains]

/-- Witness for C8: a failing load wipes the example trie. -/
theorem failed_load_resets_trie_witness :
    (execParts pyTriv fsNone ["load", "nope.csv"] exampleTrie).trie = trieEmpty ∧
    trieContains (execParts pyTriv fsNone ["load", "nope.csv"] exampleTrie).trie "cat"
      = false :=
  ⟨by rw [(failed_load_resets_trie pyTriv fsNone "nope.csv" exampleTrie rfl).2.1],
   (failed_load_resets_trie pyTriv fsNone "nope.csv" exampleTrie rfl).2.2 "cat" 5
     (by decide)⟩

theorem execParts_malformed (py : PyPrims) (fs : String → Option (List (List String)))
    (parts : List String) (t : TrieState) (h : malformedB py parts = true) :
    execParts py fs parts t = noopResult t := by
  cases parts with
  | nil => rfl
  | cons p0 rest =>
    simp only [malformedB, Bool.and_eq_true, bne_iff_ne, ne_eq, Bool.or_eq_true,
      Bool.not_eq_true', beq_iff_eq, Option.isNone_iff_eq_none] at h
    obtain ⟨hq, hrest⟩ := h
    simp only [execParts]
    rw [if_neg hq]
    rcases hrest with (har | ⟨⟨hc, hl⟩, hf⟩) | ⟨⟨hc, hl⟩, hk⟩
    · have hL : ¬(pyLower p0 = "load" ∧ (p0 :: rest).length = 2) := by
        rintro ⟨h1, h2⟩; rw [h1, h2] at har; exact absurd har (by decide)
      have hS : ¬(pyLower p0 = "save" ∧ (p0 :: rest).length = 2) := by
        rintro ⟨h1, h2⟩; rw [h1, h2] at har; exact absurd har (by decide)
      have hI : ¬(pyLower p0 = "insert" ∧ (p0 :: rest).length = 3) := by
        rintro ⟨h1, h2⟩; rw [h1, h2] at har; exact absurd har (by decide)
      have hR : ¬(pyLower p0 = "remove" ∧ (p0 :: rest).length = 2) := by
        rintro ⟨h1, h2⟩; rw [h1, h2] at har; exact absurd har (by decide)
      have hC : ¬(pyLower p0 = "contains" ∧ (p0 :: rest).length = 2) := by
        rintro ⟨h1, h2⟩; rw [h1, h2] at har; exact absurd har (by decide)
      have hK : ¬(pyLower p0 = "complete" ∧ (p0 :: rest).length = 3) := by
        rintro ⟨h1, h2⟩; rw [h1, h2] at har; exact absurd har (by decide)
      have hT : ¬(pyLower p0 = "stats" ∧ (p0 :: rest).length = 1) := by
        rintro ⟨h1, h2⟩; rw [h1, h2] at har; exact absurd har (by decide)
      rw [if_neg hL, if_neg hS, if_neg hI, if_neg hR, if_neg hC, if_neg hK, if_neg hT]
    · have hL : ¬(pyLower p0 = "load" ∧ (p0 :: rest).length = 2) := by
        rintro ⟨h1, _⟩; exact absurd (hc.symm.trans h1) (by decide)
      have hS : ¬(pyLower p0 = "save" ∧ (p0 :: rest).length = 2) := by
        rintro ⟨h1, _⟩; exact absurd (hc.symm.trans h1) (by decide)
      rw [if_neg hL, if_neg hS, if_pos ⟨hc, hl⟩, hf]
    · have hL : ¬(pyLower p0 = "load" ∧ (p0 :: rest).length = 2) := by
        rintro ⟨h1, _⟩; exact absurd (hc.symm.trans h1) (by decide)
      have hS : ¬(pyLower p0 = "save" ∧ (p0 :: rest).length = 2) := by
        rintro ⟨h1, _⟩; exact absurd (hc.symm.trans h1) (by decide)
      have hI : ¬(pyLower p0 = "insert" ∧ (p0 :: rest).length = 3) := by
        rintro ⟨h1, _⟩; exact absurd (hc.symm.trans h1) (by decide)
      have hR : ¬(pyLower p0 = "remove" ∧ (p0 :: rest).length = 2) := by
        rintro ⟨h1, _⟩; exact absurd (hc.symm.trans h1) (by decide)
      have hC : ¬(pyLower p0 = "contains" ∧ (p0 :: rest).length = 2) := by
        rintro ⟨h1, _⟩; exact absurd (hc.symm.trans h1) (by decide)
      rw [if_neg hL, if_neg hS, if_neg hI, if_neg hR, if_neg hC, if_pos ⟨hc, hl⟩, hk]

/-- C9: every input line that is not a well-formed command — empty line,
unknown command name, wrong argument count, or a non-numeric
frequency/k argument — leaves the trie unchanged, prints nothing, and
returns continue = true; the ValueError/TypeError/IndexError a handler
raises are swallowed (modelled by the total `Option`-valued branches),
never propagated. -/
theorem malformed_lines_are_noops (py : PyPrims)
    (fs : String → Option (List (List String))) (line : String) (t : TrieState) :
    (pyStrip line = "" → parse_and_execute py fs line t = noopResult t) ∧
    (malformedB py (pySplit (pyStrip line)) = true →
      parse_and_execute py fs line t = noopResult t) := by
  constructor
  · intro h; simp [parse_and_execute, h]
  · intro h
    by_cases he : pyStrip line = ""
    · simp [parse_and_execute, he]
    · simp only [parse_and_execute, if_neg he]
      exact execParts_malformed py fs _ t h

/-- Witness for C9: the empty line and an unknown command are no-ops on
the example trie. -/
theorem malformed_lines_are_noops_witness :
    parse_and_execute pyTriv fsNone "" exampleTrie = noopResult exampleTrie ∧
    parse_and_execute pyTriv fsNone "xyzzy a" exampleTrie = noopResult exampleTrie :=
  ⟨(malformed_lines_are_noops pyTriv fsNone "" exampleTrie).1 (by decide),
   (malformed_lines_are_noops pyTriv fsNone "xyzzy a" exampleTrie).2 (by decide)⟩
